import Mathlib

/-!
Verification development for a GridFS-style chunked file storage bucket
(the `mongodb-gridfs` crate).  The document store itself (the mongodb
driver) is an external collaborator; collections are modelled as lists of
documents, bytes as natural numbers below 256, and object ids as natural
numbers.  Every definition follows the corresponding Rust function in
`src/` (file and line references are given in the doc comments).
-/

namespace GridFS

/-- Bytes of a stream, each a u8 value. -/
abbrev Bytes := List Nat

/-- Free-form BSON documents (metadata, filters, sort orders) are modelled
as flat association lists; their internal structure is never inspected by
the bucket code. -/
abbrev BsonDoc := List (String × String)

/-- Options structure from `src/options.rs` (GridFSBucketOptions).
The write concern, read concern and read preference are opaque
driver-level knobs; they are modelled as optional naturals. -/
structure GridFSBucketOptions where
  bucket_name : String
  chunk_size_bytes : Nat
  write_concern : Option Nat
  read_concern : Option Nat
  read_preference : Option Nat
  disable_md5 : Bool
deriving Repr, DecidableEq

/-- Default bucket options, from `impl Default for GridFSBucketOptions`
in `src/options.rs` lines 102-113: bucket name "fs", chunk size
255 * 1024 bytes, no concerns, md5 enabled. -/
def GridFSBucketOptions.default : GridFSBucketOptions :=
  { bucket_name := "fs"
    chunk_size_bytes := 255 * 1024
    write_concern := none
    read_concern := none
    read_preference := none
    disable_md5 := false }

/-- Per-upload options from `src/options.rs` (GridFSUploadOptions).
The progress callback has no effect on stored state and is omitted;
content_type and aliases are deprecated and never read by the code. -/
structure GridFSUploadOptions where
  chunk_size_bytes : Option Nat
  metadata : Option BsonDoc
  content_type : Option String
  aliases : Option (List String)
deriving Repr, DecidableEq

/-- Find options from `src/options.rs` (GridFSFindOptions). -/
structure GridFSFindOptions where
  allow_disk_use : Option Bool
  batch_size : Option Nat
  limit : Option Int
  max_time : Option Nat
  no_cursor_timeout : Option Bool
  skip : Int
  sort : Option BsonDoc
deriving Repr, DecidableEq

/-- Error type from `src/lib.rs` (GridFSError): a wrapped store error or
file-not-found. -/
inductive GridFSError where
  | mongoError (code : Nat)
  | fileNotFound
deriving Repr, DecidableEq

/-- One document of the `<bucket>.files` collection (spec section 6).
Fields length, uploadDate and md5 are absent until the finalize step. -/
structure FileDoc where
  id : Nat
  filename : String
  chunkSize : Nat
  length : Option Nat
  uploadDate : Option Nat
  md5 : Option String
  metadata : Option BsonDoc
deriving Repr, DecidableEq

/-- One document of the `<bucket>.chunks` collection. -/
structure ChunkDoc where
  filesId : Nat
  n : Nat
  data : Bytes
deriving Repr, DecidableEq

/-- The two collections of one bucket. Insertion order of the lists is the
insertion order of the documents. -/
structure Store where
  files : List FileDoc
  chunks : List ChunkDoc
deriving Repr, DecidableEq

/-- The empty store. -/
def Store.empty : Store := { files := [], chunks := [] }

/-! ## Chunking

The read loop of `upload_from_stream` (src/bucket/upload.rs lines
264-286) reads up to `chunk_size` bytes per iteration and stops at a
zero-length read.  For an in-memory byte source each read returns
`min chunk_size remaining`; with `chunk_size = 0` the very first read
returns 0 bytes and the loop emits no chunk at all. -/

/-- Split a byte stream into the successive payloads the upload loop
stores: pieces of size C, the last one possibly shorter. Returns no
pieces when the stream is empty or C is zero (a zero-sized read buffer
makes the loop stop immediately). -/
def chunksOf (C : Nat) (B : Bytes) : List Bytes :=
  if h : B = [] ∨ C = 0 then []
  else B.take C :: chunksOf C (B.drop C)
termination_by B.length
decreasing_by
  simp only [not_or] at h
  have hB : B ≠ [] := h.1
  have hC : C ≠ 0 := h.2
  have : 0 < B.length := List.length_pos.mpr hB
  simp only [List.length_drop]
  omega

theorem chunksOf_nil (C : Nat) : chunksOf C [] = [] := by
  rw [chunksOf]; simp

theorem chunksOf_zero (B : Bytes) : chunksOf 0 B = [] := by
  rw [chunksOf]; simp

theorem chunksOf_cons (C : Nat) (B : Bytes) (hC : 0 < C) (hB : B ≠ []) :
    chunksOf C B = B.take C :: chunksOf C (B.drop C) := by
  rw [chunksOf]
  simp [hB, hC.ne']

theorem chunksOf_ne_nil (C : Nat) (B : Bytes) (hC : 0 < C) (hB : B ≠ []) :
    chunksOf C B ≠ [] := by
  rw [chunksOf_cons C B hC hB]; simp

/-- Concatenating the stored chunk payloads in order reproduces the
original stream. -/
theorem chunksOf_join (C : Nat) (hC : 0 < C) (B : Bytes) :
    (chunksOf C B).flatten = B := by
  have main : ∀ n (B : Bytes), B.length ≤ n → (chunksOf C B).flatten = B := by
    intro n
    induction n with
    | zero =>
      intro B hB
      have : B = [] := List.length_eq_zero.mp (Nat.le_zero.mp hB)
      subst this
      simp [chunksOf_nil]
    | succ n ih =>
      intro B hB
      by_cases hBnil : B = []
      · subst hBnil; simp [chunksOf_nil]
      · rw [chunksOf_cons C B hC hBnil]
        have hlen : (B.drop C).length ≤ n := by
          have : 0 < B.length := List.length_pos.mpr hBnil
          simp only [List.length_drop]
          omega
        simp only [List.flatten_cons, ih (B.drop C) hlen]
        exact List.take_append_drop C B
  exact main B.length B le_rfl

/-- Every piece except the last has length exactly C. -/
theorem chunksOf_dropLast_length (C : Nat) (hC : 0 < C) (B : Bytes) :
    ∀ l ∈ (chunksOf C B).dropLast, l.length = C := by
  have main : ∀ n (B : Bytes), B.length ≤ n →
      ∀ l ∈ (chunksOf C B).dropLast, l.length = C := by
    intro n
    induction n with
    | zero =>
      intro B hB l hl
      have : B = [] := List.length_eq_zero.mp (Nat.le_zero.mp hB)
      subst this
      simp [chunksOf_nil] at hl
    | succ n ih =>
      intro B hB l hl
      by_cases hBnil : B = []
      · subst hBnil; simp [chunksOf_nil] at hl
      · rw [chunksOf_cons C B hC hBnil] at hl
        by_cases hrest : chunksOf C (B.drop C) = []
        · rw [hrest] at hl
          simp at hl
        · rw [List.dropLast_cons_of_ne_nil hrest] at hl
          rcases List.mem_cons.mp hl with h | h
          · subst h
            -- the head is a full take: the rest is nonempty so C < B.length
            have hdropne : B.drop C ≠ [] := by
              intro hcon
              exact hrest (by rw [hcon]; exact chunksOf_nil C)
            have : C < B.length := by
              by_contra hcon
              push_neg at hcon
              exact hdropne (List.drop_eq_nil_of_le hcon)
            simp [List.length_take]
            omega
          · have hlen : (B.drop C).length ≤ n := by
              have : 0 < B.length := List.length_pos.mpr hBnil
              simp only [List.length_drop]
              omega
            exact ih (B.drop C) hlen l h
  exact main B.length B le_rfl

/-- The last piece has length `len B mod C`, or C when the length is an
exact nonzero multiple of C. -/
theorem chunksOf_getLast_length (C : Nat) (hC : 0 < C) (B : Bytes) (hB : B ≠ []) :
    ∀ l, (chunksOf C B).getLast? = some l →
      l.length = if B.length % C = 0 then C else B.length % C := by
  have main : ∀ n (B : Bytes), B.length ≤ n → B ≠ [] →
      ∀ l, (chunksOf C B).getLast? = some l →
        l.length = if B.length % C = 0 then C else B.length % C := by
    intro n
    induction n with
    | zero =>
      intro B hB hBnil
      exact absurd (List.length_eq_zero.mp (Nat.le_zero.mp hB)) hBnil
    | succ n ih =>
      intro B hB hBnil l hl
      rw [chunksOf_cons C B hC hBnil] at hl
      by_cases hrest : chunksOf C (B.drop C) = []
      · -- single piece: B.length ≤ C
        rw [hrest] at hl
        simp at hl
        have hdropnil : B.drop C = [] := by
          by_contra hcon
          exact chunksOf_ne_nil C (B.drop C) hC hcon hrest
        have hle : B.length ≤ C := by
          by_contra hcon
          push_neg at hcon
          have : B.drop C ≠ [] := by
            intro h
            have := List.drop_eq_nil_iff.mp h
            omega
          exact this hdropnil
        have hlB : l = B := by
          rw [← hl]
          exact List.take_of_length_le hle
        subst hlB
        rcases Nat.lt_or_ge l.length C with hlt | hge
        · have hmod : l.length % C = l.length := Nat.mod_eq_of_lt hlt
          have hne : l.length ≠ 0 := by
            simpa [List.length_eq_zero] using hBnil
          simp [hmod, hne]
        · have heq : l.length = C := le_antisymm hle hge
          simp [heq, Nat.mod_self]
      · -- more than one piece
        obtain ⟨d, ds, hds⟩ := List.exists_cons_of_ne_nil hrest
        rw [hds, List.getLast?_cons_cons, ← hds] at hl
        have hdropne : B.drop C ≠ [] := by
          intro hcon
          exact hrest (by rw [hcon]; exact chunksOf_nil C)
        have hCl : C < B.length := by
          by_contra hcon
          push_neg at hcon
          exact hdropne (List.drop_eq_nil_of_le hcon)
        have hlen : (B.drop C).length ≤ n := by
          have : 0 < B.length := List.length_pos.mpr hBnil
          simp only [List.length_drop]
          omega
        have := ih (B.drop C) hlen hdropne l hl
        rw [this]
        have hmodeq : (B.drop C).length % C = B.length % C := by
          simp only [List.length_drop]
          conv_rhs => rw [show B.length = C + (B.length - C) by omega]
          rw [Nat.add_mod_left]
        rw [hmodeq]
  exact main B.length B le_rfl hB

/-! ## Chunk documents

The upload loop stores chunk documents with consecutive sequence numbers
starting at 0 (src/bucket/upload.rs lines 263-286). -/

/-- Chunk documents for the given pieces, with sequence numbers counting
up from n. -/
def mkChunks (id : Nat) (n : Nat) : List Bytes → List ChunkDoc
  | [] => []
  | d :: ds => { filesId := id, n := n, data := d } :: mkChunks id (n + 1) ds

theorem mkChunks_filesId (id n : Nat) (ps : List Bytes) :
    ∀ c ∈ mkChunks id n ps, c.filesId = id := by
  induction ps generalizing n with
  | nil => intro c hc; simp [mkChunks] at hc
  | cons d ds ih =>
    intro c hc
    rcases List.mem_cons.mp hc with h | h
    · subst h; rfl
    · exact ih (n + 1) c h

theorem mkChunks_n_ge (id n : Nat) (ps : List Bytes) :
    ∀ c ∈ mkChunks id n ps, n ≤ c.n := by
  induction ps generalizing n with
  | nil => intro c hc; simp [mkChunks] at hc
  | cons d ds ih =>
    intro c hc
    rcases List.mem_cons.mp hc with h | h
    · subst h; exact le_rfl
    · exact Nat.le_of_succ_le (ih (n + 1) c h)

theorem mkChunks_sorted (id n : Nat) (ps : List Bytes) :
    (mkChunks id n ps).Pairwise (fun a b => a.n ≤ b.n) := by
  induction ps generalizing n with
  | nil => simp [mkChunks]
  | cons d ds ih =>
    simp only [mkChunks, List.pairwise_cons]
    constructor
    · intro c hc
      exact Nat.le_of_succ_le (mkChunks_n_ge id (n + 1) ds c hc)
    · exact ih (n + 1)

theorem mkChunks_data (id n : Nat) (ps : List Bytes) :
    (mkChunks id n ps).map (fun c => c.data) = ps := by
  induction ps generalizing n with
  | nil => rfl
  | cons d ds ih => simp [mkChunks, ih]

/-! ## Sorting chunks by sequence number

The download path queries the chunk collection with an ascending sort on
the sequence field (src/bucket/download.rs: FindOptions with sort on n).
The store-level sort is modelled as a stable insertion sort. -/

/-- Insert a chunk document into a list ordered by sequence number. -/
def insertByN (c : ChunkDoc) : List ChunkDoc → List ChunkDoc
  | [] => [c]
  | d :: ds => if c.n ≤ d.n then c :: d :: ds else d :: insertByN c ds

/-- Sort a chunk list by ascending sequence number. -/
def sortByN : List ChunkDoc → List ChunkDoc
  | [] => []
  | c :: cs => insertByN c (sortByN cs)

theorem insertByN_of_le (c : ChunkDoc) (l : List ChunkDoc)
    (h : ∀ d ∈ l, c.n ≤ d.n) : insertByN c l = c :: l := by
  cases l with
  | nil => rfl
  | cons d ds => simp [insertByN, h d (List.mem_cons_self d ds)]

/-- Sorting a list already in ascending sequence order leaves it
unchanged. -/
theorem sortByN_of_sorted (l : List ChunkDoc)
    (h : l.Pairwise (fun a b => a.n ≤ b.n)) : sortByN l = l := by
  induction l with
  | nil => rfl
  | cons c cs ih =>
    rw [List.pairwise_cons] at h
    simp only [sortByN, ih h.2]
    exact insertByN_of_le c cs h.1

/-! ## MD5

The writer feeds every stored payload into a streaming MD5 accumulator
and finalizes it as a lowercase hexadecimal string
(src/bucket/upload.rs lines 259-291, using the external md5 crate,
modelled here by the standard MD5 algorithm over byte lists). -/

/-- The 64 MD5 sine-derived round constants. -/
def md5K : List Nat :=
  [0xd76aa478, 0xe8c7b756, 0x242070db, 0xc1bdceee,
   0xf57c0faf, 0x4787c62a, 0xa8304613, 0xfd469501,
   0x698098d8, 0x8b44f7af, 0xffff5bb1, 0x895cd7be,
   0x6b901122, 0xfd987193, 0xa679438e, 0x49b40821,
   0xf61e2562, 0xc040b340, 0x265e5a51, 0xe9b6c7aa,
   0xd62f105d, 0x02441453, 0xd8a1e681, 0xe7d3fbc8,
   0x21e1cde6, 0xc33707d6, 0xf4d50d87, 0x455a14ed,
   0xa9e3e905, 0xfcefa3f8, 0x676f02d9, 0x8d2a4c8a,
   0xfffa3942, 0x8771f681, 0x6d9d6122, 0xfde5380c,
   0xa4beea44, 0x4bdecfa9, 0xf6bb4b60, 0xbebfbc70,
   0x289b7ec6, 0xeaa127fa, 0xd4ef3085, 0x04881d05,
   0xd9d4d039, 0xe6db99e5, 0x1fa27cf8, 0xc4ac5665,
   0xf4292244, 0x432aff97, 0xab9423a7, 0xfc93a039,
   0x655b59c3, 0x8f0ccc92, 0xffeff47d, 0x85845dd1,
   0x6fa87e4f, 0xfe2ce6e0, 0xa3014314, 0x4e0811a1,
   0xf7537e82, 0xbd3af235, 0x2ad7d2bb, 0xeb86d391]

/-- The 64 MD5 per-round left-rotation amounts. -/
def md5S : List Nat :=
  [7, 12, 17, 22, 7, 12, 17, 22, 7, 12, 17, 22, 7, 12, 17, 22,
   5, 9, 14, 20, 5, 9, 14, 20, 5, 9, 14, 20, 5, 9, 14, 20,
   4, 11, 16, 23, 4, 11, 16, 23, 4, 11, 16, 23, 4, 11, 16, 23,
   6, 10, 15, 21, 6, 10, 15, 21, 6, 10, 15, 21, 6, 10, 15, 21]

/-- Left rotation of a 32-bit word. -/
def rotl32 (x s : Nat) : Nat := (x * 2 ^ s) % 2 ^ 32 + x / 2 ^ (32 - s)

/-- Bitwise complement of a 32-bit word. -/
def not32 (x : Nat) : Nat := 2 ^ 32 - 1 - x

/-- The MD5 mixing function of round i. -/
def md5F (i b c d : Nat) : Nat :=
  if i < 16 then (b &&& c) ||| (not32 b &&& d)
  else if i < 32 then (d &&& b) ||| (not32 d &&& c)
  else if i < 48 then b ^^^ c ^^^ d
  else c ^^^ (b ||| not32 d)

/-- The MD5 message-word index of round i. -/
def md5G (i : Nat) : Nat :=
  if i < 16 then i
  else if i < 32 then (5 * i + 1) % 16
  else if i < 48 then (3 * i + 5) % 16
  else (7 * i) % 16

/-- One MD5 round on state (a, b, c, d) with message words M. -/
def md5Round (M : List Nat) (st : Nat × Nat × Nat × Nat) (i : Nat) :
    Nat × Nat × Nat × Nat :=
  let (a, b, c, d) := st
  let f := (md5F i b c d + a + md5K.getD i 0 + M.getD (md5G i) 0) % 2 ^ 32
  (d, (b + rotl32 f (md5S.getD i 0)) % 2 ^ 32, b, c)

/-- Process one 16-word block. -/
def md5Block (st : Nat × Nat × Nat × Nat) (M : List Nat) :
    Nat × Nat × Nat × Nat :=
  let (a, b, c, d) := (List.range 64).foldl (md5Round M) st
  ((st.1 + a) % 2 ^ 32, (st.2.1 + b) % 2 ^ 32,
   (st.2.2.1 + c) % 2 ^ 32, (st.2.2.2 + d) % 2 ^ 32)

/-- Assemble little-endian 32-bit words from bytes. -/
def toWordsLE : List Nat → List Nat
  | b0 :: b1 :: b2 :: b3 :: rest =>
    (b0 + 256 * b1 + 65536 * b2 + 16777216 * b3) :: toWordsLE rest
  | _ => []

/-- The four little-endian bytes of a 32-bit word. -/
def wordLE (x : Nat) : List Nat :=
  [x % 256, x / 256 % 256, x / 65536 % 256, x / 16777216 % 256]

/-- Split the padded word list into 16-word blocks (the padded list
always has a multiple of sixteen words). -/
def toBlocks : List Nat → List (List Nat)
  | w0 :: w1 :: w2 :: w3 :: w4 :: w5 :: w6 :: w7 ::
    w8 :: w9 :: w10 :: w11 :: w12 :: w13 :: w14 :: w15 :: rest =>
    [w0, w1, w2, w3, w4, w5, w6, w7,
     w8, w9, w10, w11, w12, w13, w14, w15] :: toBlocks rest
  | _ => []

/-- MD5 padding: a 0x80 byte, zeros up to 56 mod 64, then the bit length
as eight little-endian bytes. -/
def md5Pad (msg : List Nat) : List Nat :=
  let bitLen := (8 * msg.length) % 2 ^ 64
  let padZeros := (55 + 64 - msg.length % 64) % 64
  msg ++ [0x80] ++ List.replicate padZeros 0 ++
    ((List.range 8).map fun i => bitLen / 2 ^ (8 * i) % 256)

/-- The 16-byte MD5 digest of a byte list. -/
def md5Digest (msg : List Nat) : List Nat :=
  let init : Nat × Nat × Nat × Nat :=
    (0x67452301, 0xefcdab89, 0x98badcfe, 0x10325476)
  let final := (toBlocks (toWordsLE (md5Pad msg))).foldl md5Block init
  wordLE final.1 ++ wordLE final.2.1 ++ wordLE final.2.2.1 ++ wordLE final.2.2.2

/-- Lowercase hexadecimal digit characters: the ten decimal digits
followed by the six letters a to f. -/
def hexCharTable : List Char :=
  (List.range 10).map (fun i => Char.ofNat (48 + i)) ++
    (List.range 6).map fun i => Char.ofNat (97 + i)

/-- The lowercase hexadecimal digit of a nibble. -/
def hexChar (n : Nat) : Char := hexCharTable.getD (n % 16) '0'

/-- Two lowercase hexadecimal digits per byte, high nibble first, as
produced by the 02x format applied to the digest. -/
def hexOfBytes (l : List Nat) : List Char :=
  l.foldr (fun b acc => hexChar (b / 16) :: hexChar (b % 16) :: acc) []

/-- The finalized checksum string of a byte stream. -/
def md5Hex (msg : List Nat) : String := String.mk (hexOfBytes (md5Digest msg))

/-! ## Collection helpers -/

/-- First file document with the given id, as find_one on a filter by id
returns it. -/
def findFile (files : List FileDoc) (id : Nat) : Option FileDoc :=
  files.find? fun f => f.id == id

/-- Apply an update to the first file document matching the id, as
update_one with an id filter does. -/
def updateFirstFile (files : List FileDoc) (id : Nat) (u : FileDoc → FileDoc) :
    List FileDoc :=
  match files with
  | [] => []
  | f :: fs =>
    if f.id == id then u f :: fs else f :: updateFirstFile fs id u

/-- Remove the first file document matching the id and report how many
documents were deleted, as delete_one with an id filter does. -/
def deleteOneFile (files : List FileDoc) (id : Nat) : Nat × List FileDoc :=
  match files with
  | [] => (0, [])
  | f :: fs =>
    if f.id == id then (1, fs)
    else
      let r := deleteOneFile fs id
      (r.1, f :: r.2)

/-! ## Chunk Writer -/

/-- Effective chunk size resolution of `upload_from_stream`
(src/bucket/upload.rs lines 224-236): start from the bucket options
(default options when none were given) and let a per-call value
override. -/
def effectiveChunkSize (bucketOptions : Option GridFSBucketOptions)
    (options : Option GridFSUploadOptions) : Nat :=
  let dboptions := bucketOptions.getD GridFSBucketOptions.default
  match options with
  | some o => o.chunk_size_bytes.getD dboptions.chunk_size_bytes
  | none => dboptions.chunk_size_bytes

/-- The update applied by the finalize step of `upload_from_stream`
(src/bucket/upload.rs lines 288-302): set length and uploadDate, and the
md5 hex string unless checksums are disabled. -/
def finalizeFileDoc (disableMd5 : Bool) (written : Bytes) (now : Nat)
    (f : FileDoc) : FileDoc :=
  { f with
    length := some written.length
    uploadDate := some now
    md5 := if disableMd5 then f.md5 else some (md5Hex written) }

/-- Upload of a byte stream (src/bucket/upload.rs lines 218-305): insert
an initial file document carrying filename, chunk size and optional
metadata, append one chunk document per piece read with ascending
sequence numbers, then update the file document with length, upload date
and optionally the md5 checksum.  The store-generated object id and the
upload timestamp are passed in as newId and now.  Index provisioning
touches no document data and is modelled separately by
ensure_file_index.  Returns the new store and the returned file id. -/
def upload_from_stream (st : Store) (newId : Nat) (filename : String)
    (bucketOptions : Option GridFSBucketOptions)
    (options : Option GridFSUploadOptions) (source : Bytes) (now : Nat) :
    Store × Nat :=
  let dboptions := bucketOptions.getD GridFSBucketOptions.default
  let chunkSize := effectiveChunkSize bucketOptions options
  let fileDoc : FileDoc :=
    { id := newId
      filename := filename
      chunkSize := chunkSize
      length := none
      uploadDate := none
      md5 := none
      metadata := options.bind fun o => o.metadata }
  let files1 := st.files ++ [fileDoc]
  let pieces := chunksOf chunkSize source
  let chunks1 := st.chunks ++ mkChunks newId 0 pieces
  let written := pieces.flatten
  let files2 := updateFirstFile files1 newId
    (finalizeFileDoc dboptions.disable_md5 written now)
  ({ files := files2, chunks := chunks1 }, newId)

/-! ## Chunk Reader -/

/-- Store operations observable on the download path, in issue order. -/
inductive StoreOp where
  | findOneFiles (id : Nat)
  | findChunks (id : Nat)
deriving Repr, DecidableEq

/-- Download of a stored file (src/bucket/download.rs lines 58-106):
look up the file document by id; when absent fail with file-not-found
without querying chunks; otherwise return the data payloads of the
chunks of that id in ascending sequence order, together with the
filename.  The second component is the trace of store queries issued. -/
def open_download_stream_with_filename (st : Store) (id : Nat) :
    Except GridFSError (List Bytes × String) × List StoreOp :=
  match findFile st.files id with
  | some file =>
    let stream :=
      (sortByN (st.chunks.filter fun c => c.filesId == id)).map fun c => c.data
    (.ok (stream, file.filename), [.findOneFiles id, .findChunks id])
  | none => (.error .fileNotFound, [.findOneFiles id])

/-- Download without the filename (src/bucket/download.rs lines 160-165):
delegates to the filename-returning variant and drops the filename. -/
def open_download_stream (st : Store) (id : Nat) :
    Except GridFSError (List Bytes) × List StoreOp :=
  let r := open_download_stream_with_filename st id
  (r.1.map fun p => p.1, r.2)

/-! ## Catalog Operations -/

/-- Deletion (src/bucket/delete.rs lines 49-76): delete_one on the file
document; when nothing was deleted raise file-not-found and stop;
otherwise delete_many every chunk of that id. -/
def delete (st : Store) (id : Nat) : Except GridFSError Unit × Store :=
  let r := deleteOneFile st.files id
  if r.1 == 0 then (.error .fileNotFound, { st with files := r.2 })
  else
    (.ok (),
     { files := r.2, chunks := st.chunks.filter fun c => !(c.filesId == id) })

/-- Result of an update_one call. A zero matched count is not an
error. -/
structure UpdateResult where
  matchedCount : Nat
  modifiedCount : Nat
deriving Repr, DecidableEq

/-- Renaming (src/bucket/rename.rs lines 11-28): a single update_one
setting the filename field of the file document matching the id; the
result is returned as-is, zero matches included. -/
def rename (st : Store) (id : Nat) (newFilename : String) :
    UpdateResult × Store :=
  match findFile st.files id with
  | some f =>
    ({ matchedCount := 1
       modifiedCount := if f.filename == newFilename then 0 else 1 },
     { st with
       files := updateFirstFile st.files id fun g =>
         { g with filename := newFilename } })
  | none => ({ matchedCount := 0, modifiedCount := 0 }, st)

/-- The driver-level find options built by `find` (a subset of the
mongodb FindOptions fields; every field the builder call chain in
src/bucket/find.rs lines 54-62 does not mention stays at its default,
batch_size among them). -/
structure StoreFindOptions where
  allow_disk_use : Option Bool
  batch_size : Option Nat
  limit : Option Int
  max_time : Option Nat
  no_cursor_timeout : Option Bool
  skip : Option Int
  sort : Option BsonDoc
  read_concern : Option Nat
deriving Repr, DecidableEq

/-- The query a find call issues against the store. -/
structure FindCall where
  collection : String
  filter : BsonDoc
  options : StoreFindOptions
deriving Repr, DecidableEq

/-- Find (src/bucket/find.rs lines 45-66): pass the filter through to
the files collection, translating the GridFS find options field by
field; batch_size has no counterpart in the builder chain. -/
def find (bucketOptions : Option GridFSBucketOptions) (filter : BsonDoc)
    (options : GridFSFindOptions) : FindCall :=
  let dboptions := bucketOptions.getD GridFSBucketOptions.default
  { collection := dboptions.bucket_name ++ ".files"
    filter := filter
    options :=
      { allow_disk_use := options.allow_disk_use
        batch_size := none
        limit := options.limit
        max_time := options.max_time
        no_cursor_timeout := options.no_cursor_timeout
        skip := some options.skip
        sort := options.sort
        read_concern := dboptions.read_concern } }

/-! ## Index Provisioner

The provisioning routine `ensure_file_index` (src/bucket/upload.rs lines
52-176) talks to the store through a fixed sequence of operations.  Each
operation's outcome is supplied by an environment: an error code or the
payload the store would return.  The routine takes the current value of
the per-instance never_write flag and yields its result together with
the new flag value (true means still unprovisioned). -/

/-- The observable result of reading an index key document through
get_i32 and get_f64 on its two fields (filename/uploadDate for the files
collection, files_id/n for the chunks collection).  Floating point key
markers are modelled as rationals; the comparisons performed on them are
exact. -/
structure IndexKeyDoc where
  fstInt : Option Int
  sndInt : Option Int
  fstFloat : Option ℚ
  sndFloat : Option ℚ
deriving Repr, DecidableEq

/-- The guard on a floating-point ascending marker:
abs (x - 1.0) < 0.0001. -/
def floatIsOne (x : Option ℚ) : Bool :=
  match x with
  | some v => decide (|v - 1| < 1 / 10000)
  | none => false

/-- One arm scan of the index matching loop (src/bucket/upload.rs lines
99-115 and 150-166): an index satisfies the requirement when both fields
carry an ascending marker, each represented as the integer 1 or a float
within 0.0001 of 1, in any combination. -/
def keyMatches (k : IndexKeyDoc) : Bool :=
  (k.fstInt == some 1 && k.sndInt == some 1) ||
  (floatIsOne k.fstFloat && floatIsOne k.sndFloat) ||
  (k.fstInt == some 1 && floatIsOne k.sndFloat) ||
  (k.sndInt == some 1 && floatIsOne k.fstFloat)

/-- Outcomes the store supplies for each operation `ensure_file_index`
may issue, in program order.  The probe is the find_one existence check
on the files collection; its payload is some () when a document exists
and none when the collection is empty. -/
structure EnsureEnv where
  probe : Except Nat (Option Unit)
  filesCollNames : Except Nat (List String)
  filesCreateColl : Except Nat Unit
  filesListIndexes : Except Nat (List IndexKeyDoc)
  filesCreateIndex : Except Nat Unit
  chunksCollNames : Except Nat (List String)
  chunksCreateColl : Except Nat Unit
  chunksListIndexes : Except Nat (List IndexKeyDoc)
  chunksCreateIndex : Except Nat Unit

/-- The provisioning body executed when the probe reports an empty files
collection (src/bucket/upload.rs lines 70-171): for each collection,
create it when list_collection_names comes back empty, list its indexes,
and create the required index when no listed key matches.  Every
question mark in the source is an early return of the store error. -/
def ensureBody (env : EnsureEnv) : Except Nat Unit :=
  match env.filesCollNames with
  | .error e => .error e
  | .ok names =>
    match (if names.isEmpty then env.filesCreateColl else .ok ()) with
    | .error e => .error e
    | .ok _ =>
      match env.filesListIndexes with
      | .error e => .error e
      | .ok idxs =>
        match (if idxs.any keyMatches then .ok () else env.filesCreateIndex) with
        | .error e => .error e
        | .ok _ =>
          match env.chunksCollNames with
          | .error e => .error e
          | .ok names2 =>
            match (if names2.isEmpty then env.chunksCreateColl else .ok ()) with
            | .error e => .error e
            | .ok _ =>
              match env.chunksListIndexes with
              | .error e => .error e
              | .ok idxs2 =>
                if idxs2.any keyMatches then .ok ()
                else env.chunksCreateIndex

/-- The provisioning entry point (src/bucket/upload.rs lines 52-176).
When never_write is set, the existence probe runs first; its error is
swallowed by the ok() comparison, so only a successful probe reporting
an empty collection enters the body.  The flag is cleared after the
body, a statement never reached when a body operation returned early
with an error. -/
def ensure_file_index (neverWrite : Bool) (env : EnsureEnv) :
    Except Nat Unit × Bool :=
  if neverWrite then
    if env.probe.toOption = some none then
      match ensureBody env with
      | .error e => (.error e, true)
      | .ok _ => (.ok (), false)
    else (.ok (), false)
  else (.ok (), false)

/-! ## Helper lemmas about the collection operations -/

theorem findFile_eq_none (fs : List FileDoc) (id : Nat)
    (h : ∀ f ∈ fs, f.id ≠ id) : findFile fs id = none := by
  unfold findFile
  rw [List.find?_eq_none]
  intro f hf
  simpa using h f hf

theorem findFile_append_fresh (fs : List FileDoc) (d : FileDoc) (id : Nat)
    (h : ∀ f ∈ fs, f.id ≠ id) (hd : d.id = id) :
    findFile (fs ++ [d]) id = some d := by
  induction fs with
  | nil => simp [findFile, List.find?, hd]
  | cons f fs ih =>
    have hf : (f.id == id) = false := by
      simpa using h f (List.mem_cons_self f fs)
    have hrest : ∀ g ∈ fs, g.id ≠ id := fun g hg => h g (List.mem_cons_of_mem f hg)
    simpa [findFile, List.find?, hf] using ih hrest

theorem updateFirstFile_append_fresh (fs : List FileDoc) (d : FileDoc)
    (id : Nat) (u : FileDoc → FileDoc) (h : ∀ f ∈ fs, f.id ≠ id)
    (hd : d.id = id) : updateFirstFile (fs ++ [d]) id u = fs ++ [u d] := by
  induction fs with
  | nil => simp [updateFirstFile, hd]
  | cons f fs ih =>
    have hf : (f.id == id) = false := by
      simpa using h f (List.mem_cons_self f fs)
    have hrest : ∀ g ∈ fs, g.id ≠ id := fun g hg => h g (List.mem_cons_of_mem f hg)
    simp [updateFirstFile, hf, ih hrest]

theorem updateFirstFile_length (fs : List FileDoc) (id : Nat)
    (u : FileDoc → FileDoc) : (updateFirstFile fs id u).length = fs.length := by
  induction fs with
  | nil => rfl
  | cons f fs ih =>
    by_cases hf : (f.id == id) = true
    · simp [updateFirstFile, hf]
    · simp only [updateFirstFile, Bool.not_eq_true] at *
      simp [hf, ih]

theorem updateFirstFile_getElem (fs : List FileDoc) (id : Nat)
    (u : FileDoc → FileDoc) (i : Nat) :
    (updateFirstFile fs id u)[i]? = fs[i]? ∨
      ∃ f, fs[i]? = some f ∧ f.id = id ∧
        (updateFirstFile fs id u)[i]? = some (u f) := by
  induction fs generalizing i with
  | nil => left; rfl
  | cons f fs ih =>
    by_cases hf : (f.id == id) = true
    · cases i with
      | zero =>
        right
        exact ⟨f, by simp, by simpa using hf, by simp [updateFirstFile, hf]⟩
      | succ j =>
        left
        simp [updateFirstFile, hf]
    · cases i with
      | zero =>
        left
        simp only [updateFirstFile, Bool.not_eq_true] at *
        simp [hf]
      | succ j =>
        simp only [updateFirstFile, Bool.not_eq_true] at *
        simpa [hf] using ih j

theorem deleteOneFile_nomatch (fs : List FileDoc) (id : Nat)
    (h : ∀ f ∈ fs, f.id ≠ id) : deleteOneFile fs id = (0, fs) := by
  induction fs with
  | nil => rfl
  | cons f fs ih =>
    have hf : (f.id == id) = false := by
      simpa using h f (List.mem_cons_self f fs)
    have hrest : ∀ g ∈ fs, g.id ≠ id := fun g hg => h g (List.mem_cons_of_mem f hg)
    simp [deleteOneFile, hf, ih hrest]

theorem deleteOneFile_count_zero_iff (fs : List FileDoc) (id : Nat) :
    (deleteOneFile fs id).1 = 0 ↔ ∀ f ∈ fs, f.id ≠ id := by
  induction fs with
  | nil => simp [deleteOneFile]
  | cons f fs ih =>
    by_cases hf : (f.id == id) = true
    · simp only [deleteOneFile, hf, if_true]
      simp only [List.mem_cons]
      constructor
      · intro hcon; exact absurd hcon (by decide)
      · intro hall
        exact absurd (by simpa using hf) (hall f (Or.inl rfl))
    · simp only [deleteOneFile, hf, if_false]
      simp only [List.mem_cons]
      constructor
      · intro h0 g hg
        rcases hg with hg | hg
        · subst hg
          simpa using hf
        · exact (ih.mp h0) g hg
      · intro hall
        exact ih.mpr fun g hg => hall g (Or.inr hg)

theorem deleteOneFile_count_length (fs : List FileDoc) (id : Nat)
    (h : (deleteOneFile fs id).1 ≠ 0) :
    (deleteOneFile fs id).2.length + 1 = fs.length := by
  induction fs with
  | nil => simp [deleteOneFile] at h
  | cons f fs ih =>
    by_cases hf : (f.id == id) = true
    · simp [deleteOneFile, hf]
    · simp only [deleteOneFile, Bool.not_eq_true] at *
      simp only [hf, if_false] at h ⊢
      simpa using ih h

/-! ## The store state after an upload -/

/-- The file document left behind by an upload with a fresh id. -/
def uploadedFileDoc (newId : Nat) (filename : String)
    (bucketOptions : Option GridFSBucketOptions)
    (options : Option GridFSUploadOptions) (source : Bytes) (now : Nat) :
    FileDoc :=
  let dboptions := bucketOptions.getD GridFSBucketOptions.default
  let chunkSize := effectiveChunkSize bucketOptions options
  finalizeFileDoc dboptions.disable_md5 (chunksOf chunkSize source).flatten now
    { id := newId
      filename := filename
      chunkSize := chunkSize
      length := none
      uploadDate := none
      md5 := none
      metadata := options.bind fun o => o.metadata }

theorem upload_findFile (st : Store) (newId : Nat) (filename : String)
    (bucketOptions : Option GridFSBucketOptions)
    (options : Option GridFSUploadOptions) (source : Bytes) (now : Nat)
    (hfresh : ∀ f ∈ st.files, f.id ≠ newId) :
    findFile
      (upload_from_stream st newId filename bucketOptions options source now).1.files
      newId =
      some (uploadedFileDoc newId filename bucketOptions options source now) := by
  unfold upload_from_stream uploadedFileDoc
  simp only
  rw [updateFirstFile_append_fresh _ _ _ _ hfresh rfl]
  exact findFile_append_fresh _ _ _ hfresh rfl

theorem upload_chunks_sorted (st : Store) (newId : Nat) (filename : String)
    (bucketOptions : Option GridFSBucketOptions)
    (options : Option GridFSUploadOptions) (source : Bytes) (now : Nat)
    (hfresh : ∀ c ∈ st.chunks, c.filesId ≠ newId) :
    sortByN
      (((upload_from_stream st newId filename bucketOptions options source now).1.chunks).filter
        fun c => c.filesId == newId) =
      mkChunks newId 0 (chunksOf (effectiveChunkSize bucketOptions options) source) := by
  unfold upload_from_stream
  simp only [List.filter_append]
  have h1 : st.chunks.filter (fun c => c.filesId == newId) = [] := by
    rw [List.filter_eq_nil_iff]
    intro c hc
    simpa using hfresh c hc
  have h2 :
      (mkChunks newId 0 (chunksOf (effectiveChunkSize bucketOptions options) source)).filter
        (fun c => c.filesId == newId) =
      mkChunks newId 0 (chunksOf (effectiveChunkSize bucketOptions options) source) := by
    rw [List.filter_eq_self]
    intro c hc
    simpa using mkChunks_filesId _ _ _ c hc
  rw [h1, h2]
  simp only [List.nil_append]
  exact sortByN_of_sorted _ (mkChunks_sorted _ _ _)

/-! ## Claim theorems -/

/-- The nine bytes of the string "test data" used by the repository's
own tests. -/
def testDataBytes : Bytes := [116, 101, 115, 116, 32, 100, 97, 116, 97]

/-- C1: for every byte sequence B and every chunk size C > 0, uploading B
with effective chunk size C and then opening a download stream on the
returned id yields a sequence of buffers whose in-order concatenation
equals B exactly. -/
theorem upload_download_round_trip (st : Store) (id : Nat) (fname : String)
    (now C : Nat) (B : Bytes) (hC : 0 < C)
    (hchunk : ∀ c ∈ st.chunks, c.filesId ≠ id)
    (hfile : ∀ f ∈ st.files, f.id ≠ id) :
    ∃ bufs,
      (open_download_stream
        (upload_from_stream st id fname none
          (some { chunk_size_bytes := some C, metadata := none,
                  content_type := none, aliases := none }) B now).1
        (upload_from_stream st id fname none
          (some { chunk_size_bytes := some C, metadata := none,
                  content_type := none, aliases := none }) B now).2).1 =
        .ok bufs ∧
      bufs.flatten = B := by
  set uo : Option GridFSUploadOptions :=
    some { chunk_size_bytes := some C, metadata := none,
           content_type := none, aliases := none } with huo
  have hcs : effectiveChunkSize none uo = C := rfl
  have h2 : (upload_from_stream st id fname none uo B now).2 = id := rfl
  have key :
      open_download_stream_with_filename
          (upload_from_stream st id fname none uo B now).1 id =
        (.ok ((mkChunks id 0 (chunksOf C B)).map fun c => c.data,
              (uploadedFileDoc id fname none uo B now).filename),
         [.findOneFiles id, .findChunks id]) := by
    unfold open_download_stream_with_filename
    rw [upload_findFile st id fname none uo B now hfile]
    rw [upload_chunks_sorted st id fname none uo B now hchunk, hcs]
  refine ⟨chunksOf C B, ?_, chunksOf_join C hC B⟩
  unfold open_download_stream
  rw [h2, key]
  simp [mkChunks_data, Except.map]

/-- C1 witness: the round trip at the repository's own test input, nine
bytes uploaded with chunk size 4. -/
theorem upload_download_round_trip_witness :
    ∃ bufs,
      (open_download_stream
        (upload_from_stream Store.empty 1 "test.txt" none
          (some { chunk_size_bytes := some 4, metadata := none,
                  content_type := none, aliases := none }) testDataBytes 0).1
        (upload_from_stream Store.empty 1 "test.txt" none
          (some { chunk_size_bytes := some 4, metadata := none,
                  content_type := none, aliases := none }) testDataBytes 0).2).1 =
        .ok bufs ∧
      bufs.flatten = testDataBytes :=
  upload_download_round_trip Store.empty 1 "test.txt" 0 4 testDataBytes
    (by decide) (by intro c hc; simp [Store.empty] at hc)
    (by intro f hf; simp [Store.empty] at hf)

/-- C2: after uploading a nonempty B with chunk size C > 0, every stored
chunk of that file except the one with the highest sequence number has
payload length exactly C, and the highest-numbered chunk has length
B.length mod C, or C when B.length is a nonzero exact multiple of C. -/
theorem upload_chunk_lengths (st : Store) (id : Nat) (fname : String)
    (now C : Nat) (B : Bytes) (hC : 0 < C) (hB : B ≠ [])
    (hchunk : ∀ c ∈ st.chunks, c.filesId ≠ id) :
    (∀ d ∈ (sortByN
        (((upload_from_stream st id fname none
            (some { chunk_size_bytes := some C, metadata := none,
                    content_type := none, aliases := none }) B now).1.chunks).filter
          fun c => c.filesId == id)).dropLast,
        d.data.length = C) ∧
    (∀ d, (sortByN
        (((upload_from_stream st id fname none
            (some { chunk_size_bytes := some C, metadata := none,
                    content_type := none, aliases := none }) B now).1.chunks).filter
          fun c => c.filesId == id)).getLast? = some d →
        d.data.length = if B.length % C = 0 then C else B.length % C) := by
  set uo : Option GridFSUploadOptions :=
    some { chunk_size_bytes := some C, metadata := none,
           content_type := none, aliases := none } with huo
  have hcs : effectiveChunkSize none uo = C := rfl
  rw [upload_chunks_sorted st id fname none uo B now hchunk, hcs]
  constructor
  · intro d hd
    have hmem : d.data ∈ ((mkChunks id 0 (chunksOf C B)).dropLast).map
        (fun c => c.data) := List.mem_map_of_mem _ hd
    rw [List.map_dropLast, mkChunks_data] at hmem
    exact chunksOf_dropLast_length C hC B d.data hmem
  · intro d hd
    have hlast : (chunksOf C B).getLast? = some d.data := by
      rw [← mkChunks_data id 0 (chunksOf C B), List.getLast?_map, hd]
      rfl
    exact chunksOf_getLast_length C hC B hB d.data hlast

/-- C2 witness: nine bytes with chunk size 4 give pieces of lengths
4, 4 and 1. -/
theorem upload_chunk_lengths_witness :
    (∀ d ∈ (sortByN
        (((upload_from_stream Store.empty 1 "test.txt" none
            (some { chunk_size_bytes := some 4, metadata := none,
                    content_type := none, aliases := none }) testDataBytes 0).1.chunks).filter
          fun c => c.filesId == 1)).dropLast,
        d.data.length = 4) ∧
    (∀ d, (sortByN
        (((upload_from_stream Store.empty 1 "test.txt" none
            (some { chunk_size_bytes := some 4, metadata := none,
                    content_type := none, aliases := none }) testDataBytes 0).1.chunks).filter
          fun c => c.filesId == 1)).getLast? = some d →
        d.data.length = if testDataBytes.length % 4 = 0 then 4 else testDataBytes.length % 4) :=
  upload_chunk_lengths Store.empty 1 "test.txt" 0 4 testDataBytes
    (by decide) (by decide) (by intro c hc; simp [Store.empty] at hc)

/-- C3 counterexample: with default bucket options and no per-call
override the effective chunk size is 255 * 1024 = 261120 bytes, not
262144, and the recorded chunkSize field at a concrete upload is 261120
as well. -/
theorem default_chunk_size_not_262144 :
    effectiveChunkSize (some GridFSBucketOptions.default) none ≠ 262144 ∧
    ((findFile
        (upload_from_stream Store.empty 1 "test.txt"
          (some GridFSBucketOptions.default) none testDataBytes 0).1.files
        1).map fun d => d.chunkSize) = some 261120 := by
  constructor
  · decide
  · rfl

/-- C3 amended: when upload_from_stream is called with no per-call
chunk-size override and the bucket was constructed with default options
(or none), the effective chunk size used for chunking and recorded in
the chunkSize field is 261120 bytes (255 KiB). -/
theorem default_chunk_size_261120 (bo : Option GridFSBucketOptions)
    (hbo : bo = none ∨ bo = some GridFSBucketOptions.default)
    (st : Store) (id : Nat) (fname : String) (B : Bytes) (now : Nat)
    (hfresh : ∀ f ∈ st.files, f.id ≠ id) :
    effectiveChunkSize bo none = 261120 ∧
    ∃ d, findFile (upload_from_stream st id fname bo none B now).1.files id =
        some d ∧ d.chunkSize = 261120 := by
  have hcs : effectiveChunkSize bo none = 261120 := by
    rcases hbo with h | h <;> subst h <;> rfl
  refine ⟨hcs, uploadedFileDoc id fname bo none B now, ?_, ?_⟩
  · exact upload_findFile st id fname bo none B now hfresh
  · show effectiveChunkSize bo none = 261120
    exact hcs

/-- C3 amended witness: concrete upload into the empty store with no
options at all. -/
theorem default_chunk_size_261120_witness :
    effectiveChunkSize none none = 261120 ∧
    ∃ d, findFile (upload_from_stream Store.empty 1 "test.txt" none none
        testDataBytes 0).1.files 1 = some d ∧ d.chunkSize = 261120 :=
  default_chunk_size_261120 none (Or.inl rfl) Store.empty 1 "test.txt"
    testDataBytes 0 (by intro f hf; simp [Store.empty] at hf)

/-- A store with one finalized file (id 7, two ids of chunks present)
used as a concrete witness input. -/
def sampleFileDoc : FileDoc :=
  { id := 7, filename := "a.txt", chunkSize := 4, length := some 3,
    uploadDate := some 0, md5 := none, metadata := none }

/-- Concrete witness store holding sampleFileDoc and chunks of two
different file ids. -/
def sampleStore : Store :=
  { files := [sampleFileDoc]
    chunks := [{ filesId := 7, n := 0, data := [1, 2, 3] },
               { filesId := 8, n := 0, data := [4] }] }

/-- C4: delete raises file-not-found exactly when no file document
matches the id; in that case the store is left untouched; when a file
document was deleted, every chunk referencing the id is deleted and no
other chunk is. -/
theorem delete_spec (st : Store) (id : Nat) :
    ((delete st id).1 = .error .fileNotFound ↔ ∀ f ∈ st.files, f.id ≠ id) ∧
    ((∀ f ∈ st.files, f.id ≠ id) → (delete st id).2 = st) ∧
    ((∃ f ∈ st.files, f.id = id) →
      (delete st id).1 = .ok () ∧
      (delete st id).2.files.length + 1 = st.files.length ∧
      (∀ c ∈ (delete st id).2.chunks, c.filesId ≠ id) ∧
      (∀ c ∈ st.chunks, c.filesId ≠ id → c ∈ (delete st id).2.chunks)) := by
  by_cases hz : (deleteOneFile st.files id).1 = 0
  · have hall : ∀ f ∈ st.files, f.id ≠ id :=
      (deleteOneFile_count_zero_iff st.files id).mp hz
    have hr : deleteOneFile st.files id = (0, st.files) :=
      deleteOneFile_nomatch st.files id hall
    have hdel : delete st id = (.error .fileNotFound, st) := by
      unfold delete
      rw [hr]
      simp
    refine ⟨?_, ?_, ?_⟩
    · rw [hdel]
      exact ⟨fun _ => hall, fun _ => rfl⟩
    · intro _
      rw [hdel]
    · rintro ⟨f, hf, hfid⟩
      exact absurd hfid (hall f hf)
  · have hne : ¬ ∀ f ∈ st.files, f.id ≠ id := fun h =>
      hz ((deleteOneFile_count_zero_iff st.files id).mpr h)
    have hb : ((deleteOneFile st.files id).1 == 0) = false := by
      simpa using hz
    have hdel1 : (delete st id).1 = .ok () := by
      unfold delete
      simp [hb]
    have hdel2 : (delete st id).2 =
        { files := (deleteOneFile st.files id).2,
          chunks := st.chunks.filter fun c => !(c.filesId == id) } := by
      unfold delete
      simp [hb]
    refine ⟨?_, ?_, ?_⟩
    · rw [hdel1]
      constructor
      · intro h
        exact Except.noConfusion h
      · intro h
        exact absurd h hne
    · intro h
      exact absurd h hne
    · intro _
      refine ⟨hdel1, ?_, ?_, ?_⟩
      · rw [hdel2]
        exact deleteOneFile_count_length st.files id hz
      · rw [hdel2]
        intro c hc
        have := (List.mem_filter.mp hc).2
        simpa using this
      · rw [hdel2]
        intro c hc hcid
        exact List.mem_filter.mpr ⟨hc, by simpa using hcid⟩

/-- C4 witness: deleting the existing file 7 from the sample store
succeeds and removes exactly its chunks. -/
theorem delete_spec_witness :
    (delete sampleStore 7).1 = .ok () ∧
    (delete sampleStore 7).2.files.length + 1 = sampleStore.files.length ∧
    (∀ c ∈ (delete sampleStore 7).2.chunks, c.filesId ≠ 7) ∧
    (∀ c ∈ sampleStore.chunks, c.filesId ≠ 7 →
      c ∈ (delete sampleStore 7).2.chunks) :=
  (delete_spec sampleStore 7).2.2
    ⟨sampleFileDoc, by simp [sampleStore], rfl⟩

/-- C5: opening a download stream on an id with no file document fails
immediately with file-not-found and issues no query against the chunks
collection, for both download variants. -/
theorem open_download_stream_not_found (st : Store) (id : Nat)
    (h : ∀ f ∈ st.files, f.id ≠ id) :
    open_download_stream_with_filename st id =
      (.error .fileNotFound, [.findOneFiles id]) ∧
    (open_download_stream st id).1 = .error .fileNotFound ∧
    StoreOp.findChunks id ∉ (open_download_stream_with_filename st id).2 ∧
    StoreOp.findChunks id ∉ (open_download_stream st id).2 := by
  have hf : findFile st.files id = none := findFile_eq_none st.files id h
  have h1 : open_download_stream_with_filename st id =
      (.error .fileNotFound, [.findOneFiles id]) := by
    unfold open_download_stream_with_filename
    rw [hf]
  refine ⟨h1, ?_, ?_, ?_⟩
  · unfold open_download_stream
    rw [h1]
    rfl
  · rw [h1]
    simp
  · unfold open_download_stream
    rw [h1]
    simp

/-- C5 witness: download from the empty store. -/
theorem open_download_stream_not_found_witness :
    open_download_stream_with_filename Store.empty 1 =
      (.error .fileNotFound, [.findOneFiles 1]) ∧
    (open_download_stream Store.empty 1).1 = .error .fileNotFound ∧
    StoreOp.findChunks 1 ∉ (open_download_stream_with_filename Store.empty 1).2 ∧
    StoreOp.findChunks 1 ∉ (open_download_stream Store.empty 1).2 :=
  open_download_stream_not_found Store.empty 1
    (by intro f hf; simp [Store.empty] at hf)

/-! ## Shape of the checksum string -/

theorem hexOfBytes_cons (b : Nat) (bs : List Nat) :
    hexOfBytes (b :: bs) =
      hexChar (b / 16) :: hexChar (b % 16) :: hexOfBytes bs := rfl

theorem hexOfBytes_length (l : List Nat) :
    (hexOfBytes l).length = 2 * l.length := by
  induction l with
  | nil => rfl
  | cons b bs ih =>
    rw [hexOfBytes_cons]
    simp only [List.length_cons, ih]
    omega

theorem hexChar_mem (n : Nat) : hexChar n ∈ hexCharTable := by
  have h : n % 16 < hexCharTable.length := by
    have : n % 16 < 16 := Nat.mod_lt _ (by decide)
    simpa [hexCharTable] using this
  rw [hexChar, List.getD_eq_getElem _ _ h]
  exact List.getElem_mem h

theorem hexOfBytes_mem (l : List Nat) :
    ∀ c ∈ hexOfBytes l, c ∈ hexCharTable := by
  induction l with
  | nil =>
    intro c hc
    simp [hexOfBytes] at hc
  | cons b bs ih =>
    intro c hc
    rw [hexOfBytes_cons] at hc
    rcases List.mem_cons.mp hc with h | h
    · subst h; exact hexChar_mem _
    rcases List.mem_cons.mp h with h | h
    · subst h; exact hexChar_mem _
    · exact ih c h

theorem md5Digest_length (msg : List Nat) : (md5Digest msg).length = 16 := by
  unfold md5Digest
  simp [wordLE]

theorem md5Hex_length (msg : List Nat) : (md5Hex msg).length = 32 := by
  show (hexOfBytes (md5Digest msg)).length = 32
  rw [hexOfBytes_length, md5Digest_length]

theorem md5Hex_chars (msg : List Nat) :
    ∀ c ∈ (md5Hex msg).data, c ∈ hexCharTable :=
  fun c hc => hexOfBytes_mem _ c hc

/-- The model reproduces the digest asserted by the repository's own
upload test for the nine bytes of "test data". -/
theorem md5Hex_test_data :
    md5Hex testDataBytes = "eb733a00c0c9d336e65691a37ab54293" := by decide

/-- C6: with checksums enabled the finalize step sets the md5 field of
the file document to the 32-character lowercase hexadecimal digest of
the uploaded bytes; with checksums disabled the field stays absent. -/
theorem upload_checksum (st : Store) (id : Nat) (fname : String)
    (bo : GridFSBucketOptions) (uo : Option GridFSUploadOptions)
    (B : Bytes) (now : Nat)
    (hfresh : ∀ f ∈ st.files, f.id ≠ id)
    (hC : 0 < effectiveChunkSize (some bo) uo) :
    ∃ d,
      findFile (upload_from_stream st id fname (some bo) uo B now).1.files id =
        some d ∧
      d.md5 = (if bo.disable_md5 then none else some (md5Hex B)) ∧
      (md5Hex B).length = 32 ∧
      ∀ ch ∈ (md5Hex B).data, ch ∈ hexCharTable := by
  refine ⟨uploadedFileDoc id fname (some bo) uo B now,
    upload_findFile st id fname (some bo) uo B now hfresh, ?_,
    md5Hex_length B, md5Hex_chars B⟩
  unfold uploadedFileDoc finalizeFileDoc
  simp only [Option.getD_some]
  rw [chunksOf_join _ hC B]

/-- C6 witness: default options (checksums enabled) on the repository's
test input. -/
theorem upload_checksum_witness :
    ∃ d,
      findFile (upload_from_stream Store.empty 1 "test.txt"
          (some GridFSBucketOptions.default) none testDataBytes 0).1.files 1 =
        some d ∧
      d.md5 = (if GridFSBucketOptions.default.disable_md5 then none
               else some (md5Hex testDataBytes)) ∧
      (md5Hex testDataBytes).length = 32 ∧
      ∀ ch ∈ (md5Hex testDataBytes).data, ch ∈ hexCharTable :=
  upload_checksum Store.empty 1 "test.txt" GridFSBucketOptions.default none
    testDataBytes 0 (by intro f hf; simp [Store.empty] at hf) (by decide)

/-- Environment in which every store operation of the provisioning
sequence, the existence probe included, fails with error code 3. -/
def envProbeFails : EnsureEnv :=
  { probe := .error 3
    filesCollNames := .error 3
    filesCreateColl := .error 3
    filesListIndexes := .error 3
    filesCreateIndex := .error 3
    chunksCollNames := .error 3
    chunksCreateColl := .error 3
    chunksListIndexes := .error 3
    chunksCreateIndex := .error 3 }

/-- C7 counterexample: when the find_one existence probe itself fails,
the ok() comparison swallows the error, provisioning is skipped, the
flag is still cleared and the caller observes success — contradicting
the claim that every store-operation failure of the provisioning
sequence is surfaced and leaves the instance unprovisioned. -/
theorem ensure_probe_failure_swallowed :
    envProbeFails.probe = .error 3 ∧
    ensure_file_index true envProbeFails = (.ok (), false) :=
  ⟨rfl, rfl⟩

/-- C7 amended: a failure of any collection or index operation after the
existence probe aborts the call with that error and leaves the flag set
to never_write (the instance unprovisioned); every error the caller
observes leaves the instance unprovisioned; but a failure of the
existence probe itself is swallowed — provisioning is skipped, the flag
is cleared, and the call reports success. -/
theorem ensure_error_semantics (env : EnsureEnv) (e : Nat) :
    (env.probe.toOption = some none → ensureBody env = .error e →
      ensure_file_index true env = (.error e, true)) ∧
    ((ensure_file_index true env).1 = .error e →
      (ensure_file_index true env).2 = true) ∧
    (env.probe.toOption ≠ some none →
      ensure_file_index true env = (.ok (), false)) := by
  refine ⟨?_, ?_, ?_⟩
  · intro hp hbody
    unfold ensure_file_index
    rw [if_pos rfl, if_pos hp, hbody]
  · intro herr
    unfold ensure_file_index at herr ⊢
    rw [if_pos rfl] at herr ⊢
    by_cases hp : env.probe.toOption = some none
    · rw [if_pos hp] at herr ⊢
      cases hbody : ensureBody env with
      | error e2 => rfl
      | ok _ =>
        rw [hbody] at herr
        exact absurd herr (by simp)
    · rw [if_neg hp] at herr
      exact absurd herr (by simp)
  · intro hp
    unfold ensure_file_index
    rw [if_pos rfl, if_neg hp]

/-- Environment whose probe reports an empty files collection and whose
first body operation (list_collection_names on the files collection)
fails with error code 5. -/
def envBodyFails : EnsureEnv :=
  { probe := .ok none
    filesCollNames := .error 5
    filesCreateColl := .ok ()
    filesListIndexes := .ok []
    filesCreateIndex := .ok ()
    chunksCollNames := .ok []
    chunksCreateColl := .ok ()
    chunksListIndexes := .ok []
    chunksCreateIndex := .ok () }

/-- C7 amended witness: the failing list_collection_names call aborts
provisioning with its error and the flag stays set. -/
theorem ensure_error_semantics_witness :
    ensure_file_index true envBodyFails = (.error 5, true) :=
  (ensure_error_semantics envBodyFails 5).1 rfl rfl

/-- C8: renaming an id that matches no file document is not an error: it
returns a zero-match result and leaves the store unchanged, in contrast
with delete. -/
theorem rename_missing_id (st : Store) (id : Nat) (newFilename : String)
    (h : ∀ f ∈ st.files, f.id ≠ id) :
    rename st id newFilename =
      ({ matchedCount := 0, modifiedCount := 0 }, st) := by
  unfold rename
  rw [findFile_eq_none st.files id h]

/-- C8 witness: renaming id 9 in the sample store, which only holds file
id 7. -/
theorem rename_missing_id_witness :
    rename sampleStore 9 "new.txt" =
      ({ matchedCount := 0, modifiedCount := 0 }, sampleStore) :=
  rename_missing_id sampleStore 9 "new.txt"
    (by intro f hf; simp [sampleStore] at hf; subst hf; decide)

/-- C9: rename changes at most the filename field of the first file
document matching the id: chunk documents and the number of file
documents are unchanged, and every file document is either untouched or
equal to its old value with only the filename replaced. -/
theorem rename_frame (st : Store) (id : Nat) (newFilename : String) :
    (rename st id newFilename).2.chunks = st.chunks ∧
    (rename st id newFilename).2.files.length = st.files.length ∧
    ∀ i : Nat,
      (rename st id newFilename).2.files[i]? = st.files[i]? ∨
      ∃ f, st.files[i]? = some f ∧ f.id = id ∧
        (rename st id newFilename).2.files[i]? =
          some { f with filename := newFilename } := by
  unfold rename
  cases hfind : findFile st.files id with
  | none => exact ⟨rfl, rfl, fun i => Or.inl rfl⟩
  | some f =>
    refine ⟨rfl, updateFirstFile_length st.files id _, ?_⟩
    intro i
    exact updateFirstFile_getElem st.files id _ i

/-- C10: the batch_size field of GridFSFindOptions is ignored: two find
calls whose options differ only in batch_size issue the identical query
against the files collection (the store-level options carry no
batch size). -/
theorem find_ignores_batch_size (bucketOptions : Option GridFSBucketOptions)
    (filter : BsonDoc) (options : GridFSFindOptions) (b : Option Nat) :
    find bucketOptions filter { options with batch_size := b } =
      find bucketOptions filter options ∧
    (find bucketOptions filter options).options.batch_size = none :=
  ⟨rfl, rfl⟩

end GridFS
